import Mathlib

/-!
Shallow embedding of the NBT network serializer in
`src/steel-utils/src/text/mod.rs` of the SteelMC repository.

Bytes are modelled as `Nat` values (each produced byte is `< 256` by
construction), the output sink `Vec<u8>` as a `List Nat`, and the
`std::io::Result` of every writer as `Except IoError`.  Strings
(`simdnbt::Mutf8String`) are modelled by their modified-UTF-8 byte
content, a `List Nat`.  Floats and doubles are modelled by their IEEE-754
bit patterns (a `Nat`), because the code only ever touches their
`to_be_bytes` representation.
-/

set_option maxRecDepth 4096

/-- Models `std::io::Error` as produced by a failing sink write.  The sink
in the source is always `Vec<u8>`, whose `Write` impl is infallible, so
this error is never actually constructed; it exists to mirror the
`io::Result` type of every writer. -/
inductive IoError : Type where
  | writeFailed
deriving DecidableEq

/-- Models `std::io::Result<T>`. -/
abbrev IoResult (α : Type) := Except IoError α

/-- Models `Write::write_all` on a `Vec<u8>` sink: appends the bytes and
always succeeds. -/
def write_all (writer : List Nat) (bytes : List Nat) : IoResult (List Nat) :=
  Except.ok (writer ++ bytes)

/-- Big-endian bytes of `(n as u16)`, i.e. of `n % 65536`; models
`(x as u16).to_be_bytes()` on a `usize`. -/
def u16_be_bytes (n : Nat) : List Nat :=
  [n / 256 % 256, n % 256]

/-- Big-endian bytes of `(n as u32)`, i.e. of `n % 2^32`; models
`(x as i32).to_be_bytes()` applied to a nonnegative length cast from
`usize` (the cast wraps modulo `2^32` and the byte image of the i32 is
the byte image of the wrapped unsigned value). -/
def u32_be_bytes (n : Nat) : List Nat :=
  [n / 2 ^ 24 % 256, n / 2 ^ 16 % 256, n / 2 ^ 8 % 256, n % 256]

/-- Big-endian bytes of `n % 2^64`; models `u64::to_be_bytes`. -/
def u64_be_bytes (n : Nat) : List Nat :=
  [n / 2 ^ 56 % 256, n / 2 ^ 48 % 256, n / 2 ^ 40 % 256, n / 2 ^ 32 % 256,
   n / 2 ^ 24 % 256, n / 2 ^ 16 % 256, n / 2 ^ 8 % 256, n % 256]

/-- The single byte of an `i8` in two's complement; models
`(v as u8)` on an `i8`. -/
def i8_byte (v : Int) : Nat := (v % 256).toNat

/-- Big-endian two's-complement bytes of an `i16`; models
`i16::to_be_bytes`. -/
def i16_be_bytes (v : Int) : List Nat := u16_be_bytes (v % 2 ^ 16).toNat

/-- Big-endian two's-complement bytes of an `i32`; models
`i32::to_be_bytes`. -/
def i32_be_bytes (v : Int) : List Nat := u32_be_bytes (v % 2 ^ 32).toNat

/-- Big-endian two's-complement bytes of an `i64`; models
`i64::to_be_bytes`. -/
def i64_be_bytes (v : Int) : List Nat := u64_be_bytes (v % 2 ^ 64).toNat

mutual

/-- Models `simdnbt::owned::NbtTag`.  `Float`/`Double` carry the IEEE-754
bit pattern, `String`/`ByteArray` carry raw bytes, and `Byte` carries the
signed value of the `i8`. -/
inductive NbtTag : Type where
  | Byte (v : Int)
  | Short (v : Int)
  | Int (v : Int)
  | Long (v : Int)
  | Float (bits : Nat)
  | Double (bits : Nat)
  | ByteArray (v : List Nat)
  | String (v : List Nat)
  | List (l : NbtList)
  | Compound (c : NbtCompound)
  | IntArray (v : List Int)
  | LongArray (v : List Int)

/-- Models `simdnbt::owned::NbtList`: one variant per homogeneous element
kind plus the untyped `Empty` variant.  `List` and `Compound` element
sequences use the dedicated sequence types below so that the whole family
is a plain mutual inductive. -/
inductive NbtList : Type where
  | Empty
  | Byte (v : List Int)
  | Short (v : List Int)
  | Int (v : List Int)
  | Long (v : List Int)
  | Float (v : List Nat)
  | Double (v : List Nat)
  | ByteArray (v : List (List Nat))
  | String (v : List (List Nat))
  | List (v : NbtListSeq)
  | Compound (v : NbtCompoundSeq)
  | IntArray (v : List (List Int))
  | LongArray (v : List (List Int))

/-- Models `simdnbt::owned::NbtCompound`: an ordered sequence of
(modified-UTF-8 key bytes, tag) entries, iterated in insertion order. -/
inductive NbtCompound : Type where
  | nil
  | entry (key : List Nat) (value : NbtTag) (rest : NbtCompound)

/-- An ordered sequence of `NbtList` values (the payload of
`NbtList::List`). -/
inductive NbtListSeq : Type where
  | nil
  | cons (head : NbtList) (tail : NbtListSeq)

/-- An ordered sequence of `NbtCompound` values (the payload of
`NbtList::Compound`). -/
inductive NbtCompoundSeq : Type where
  | nil
  | cons (head : NbtCompound) (tail : NbtCompoundSeq)

end

/-- Number of elements of an `NbtListSeq`. -/
def NbtListSeq.length : NbtListSeq → Nat
  | .nil => 0
  | .cons _ t => t.length + 1

/-- Number of elements of an `NbtCompoundSeq`. -/
def NbtCompoundSeq.length : NbtCompoundSeq → Nat
  | .nil => 0
  | .cons _ t => t.length + 1

/-- Models `get_nbt_tag_id`: the 1-byte wire identifier of a tag. -/
def get_nbt_tag_id : NbtTag → Nat
  | .Byte _ => 0x01
  | .Short _ => 0x02
  | .Int _ => 0x03
  | .Long _ => 0x04
  | .Float _ => 0x05
  | .Double _ => 0x06
  | .ByteArray _ => 0x07
  | .String _ => 0x08
  | .List _ => 0x09
  | .Compound _ => 0x0A
  | .IntArray _ => 0x0B
  | .LongArray _ => 0x0C

/-- Models a `for x in v { writer.write_all(&enc(x))?; }` loop: writes
`enc x` for each element in order, threading the sink. -/
def write_each {α : Type} (enc : α → List Nat) (writer : List Nat) :
    List α → IoResult (List Nat)
  | [] => Except.ok writer
  | x :: rest => do
      let w ← write_all writer (enc x)
      write_each enc w rest

/-- Models the element loop of `write_nbt_list_byte_array` (and the
`ByteArray` arm of the payload writer's sibling loops): for each byte
array, write its `i32` length then its raw bytes. -/
def write_byte_arrays (writer : List Nat) :
    List (List Nat) → IoResult (List Nat)
  | [] => Except.ok writer
  | arr :: rest => do
      let w ← write_all writer (u32_be_bytes arr.length)
      let w ← write_all w arr
      write_byte_arrays w rest

/-- Models the element loop of `write_nbt_list_string`: for each string,
write its `u16` length then its modified-UTF-8 bytes. -/
def write_strings (writer : List Nat) :
    List (List Nat) → IoResult (List Nat)
  | [] => Except.ok writer
  | s :: rest => do
      let w ← write_all writer (u16_be_bytes s.length)
      let w ← write_all w s
      write_strings w rest

/-- Models the element loop of `write_nbt_list_int_array`: for each int
array, write its `i32` length then its big-endian `i32` elements. -/
def write_int_arrays (writer : List Nat) :
    List (List Int) → IoResult (List Nat)
  | [] => Except.ok writer
  | arr :: rest => do
      let w ← write_all writer (u32_be_bytes arr.length)
      let w ← write_each i32_be_bytes w arr
      write_int_arrays w rest

/-- Models the element loop of `write_nbt_list_long_array`: for each long
array, write its `i32` length then its big-endian `i64` elements. -/
def write_long_arrays (writer : List Nat) :
    List (List Int) → IoResult (List Nat)
  | [] => Except.ok writer
  | arr :: rest => do
      let w ← write_all writer (u32_be_bytes arr.length)
      let w ← write_each i64_be_bytes w arr
      write_long_arrays w rest

/-- Models `write_nbt_list_long` (outside the mutual block in the source
too): kind byte `0x04`, `i32` count, then big-endian `i64` elements. -/
def write_nbt_list_long (writer : List Nat) (v : List Int) :
    IoResult (List Nat) := do
  let w ← write_all writer [0x04]
  let w ← write_all w (u32_be_bytes v.length)
  write_each i64_be_bytes w v

/-- Models `write_nbt_list_float`: kind byte `0x05`, `i32` count, then
the big-endian IEEE-754 bit patterns. -/
def write_nbt_list_float (writer : List Nat) (v : List Nat) :
    IoResult (List Nat) := do
  let w ← write_all writer [0x05]
  let w ← write_all w (u32_be_bytes v.length)
  write_each u32_be_bytes w v

/-- Models `write_nbt_list_double`: kind byte `0x06`, `i32` count, then
the big-endian IEEE-754 bit patterns. -/
def write_nbt_list_double (writer : List Nat) (v : List Nat) :
    IoResult (List Nat) := do
  let w ← write_all writer [0x06]
  let w ← write_all w (u32_be_bytes v.length)
  write_each u64_be_bytes w v

/-- Models `write_nbt_list_byte_array`: kind byte `0x07`, `i32` count,
then each byte array as `i32` length plus raw bytes. -/
def write_nbt_list_byte_array (writer : List Nat) (v : List (List Nat)) :
    IoResult (List Nat) := do
  let w ← write_all writer [0x07]
  let w ← write_all w (u32_be_bytes v.length)
  write_byte_arrays w v

/-- Models `write_nbt_list_string`: kind byte `0x08`, `i32` count, then
each string as `u16` length plus modified-UTF-8 bytes. -/
def write_nbt_list_string (writer : List Nat) (v : List (List Nat)) :
    IoResult (List Nat) := do
  let w ← write_all writer [0x08]
  let w ← write_all w (u32_be_bytes v.length)
  write_strings w v

/-- Models `write_nbt_list_int_array`: kind byte `0x0B`, `i32` count,
then each int array as `i32` length plus big-endian `i32` elements. -/
def write_nbt_list_int_array (writer : List Nat) (v : List (List Int)) :
    IoResult (List Nat) := do
  let w ← write_all writer [0x0B]
  let w ← write_all w (u32_be_bytes v.length)
  write_int_arrays w v

/-- Models `write_nbt_list_long_array`: kind byte `0x0C`, `i32` count,
then each long array as `i32` length plus big-endian `i64` elements. -/
def write_nbt_list_long_array (writer : List Nat) (v : List (List Int)) :
    IoResult (List Nat) := do
  let w ← write_all writer [0x0C]
  let w ← write_all w (u32_be_bytes v.length)
  write_long_arrays w v

mutual

/-- Models `write_nbt_compound`: for each entry in iteration order, write
the tag-id byte, the `u16`-length-prefixed key, and the value's payload;
after the last entry write the single `TAG_End` terminator byte `0x00`. -/
def write_nbt_compound (writer : List Nat) (compound : NbtCompound) :
    IoResult (List Nat) :=
  match compound with
  | .nil => write_all writer [0x00]
  | .entry key value rest => do
      let w ← write_all writer [get_nbt_tag_id value]
      let w ← write_all w (u16_be_bytes key.length)
      let w ← write_all w key
      let w ← write_nbt_tag_payload w value
      write_nbt_compound w rest

/-- Models `write_nbt_tag_payload`: dispatch on the tag variant and write
its payload only (no tag-id byte, no key). -/
def write_nbt_tag_payload (writer : List Nat) (tag : NbtTag) :
    IoResult (List Nat) :=
  match tag with
  | .Byte v => write_all writer [i8_byte v]
  | .Short v => write_all writer (i16_be_bytes v)
  | .Int v => write_all writer (i32_be_bytes v)
  | .Long v => write_all writer (i64_be_bytes v)
  | .Float bits => write_all writer (u32_be_bytes bits)
  | .Double bits => write_all writer (u64_be_bytes bits)
  | .ByteArray v => do
      let w ← write_all writer (u32_be_bytes v.length)
      write_all w v
  | .String v => do
      let w ← write_all writer (u16_be_bytes v.length)
      write_all w v
  | .List l => write_nbt_list writer l
  | .Compound c => write_nbt_compound writer c
  | .IntArray v => do
      let w ← write_all writer (u32_be_bytes v.length)
      write_each i32_be_bytes w v
  | .LongArray v => do
      let w ← write_all writer (u32_be_bytes v.length)
      write_each i64_be_bytes w v

/-- Models `write_nbt_list`: the `Empty` variant writes the `TAG_End`
kind byte and an `i32` count of 0; every other variant writes its element
kind byte, the `i32` element count, then the element payloads in order
(delegating to the `write_nbt_list_*` helpers exactly as the source
does). -/
def write_nbt_list (writer : List Nat) (list : NbtList) :
    IoResult (List Nat) :=
  match list with
  | .Empty => do
      let w ← write_all writer [0x00]
      write_all w [0x00, 0x00, 0x00, 0x00]
  | .Byte v => do
      let w ← write_all writer [0x01]
      let w ← write_all w (u32_be_bytes v.length)
      write_each (fun b => [i8_byte b]) w v
  | .Short v => do
      let w ← write_all writer [0x02]
      let w ← write_all w (u32_be_bytes v.length)
      write_each i16_be_bytes w v
  | .Int v => do
      let w ← write_all writer [0x03]
      let w ← write_all w (u32_be_bytes v.length)
      write_each i32_be_bytes w v
  | .Long v => write_nbt_list_long writer v
  | .Float v => write_nbt_list_float writer v
  | .Double v => write_nbt_list_double writer v
  | .ByteArray v => write_nbt_list_byte_array writer v
  | .String v => write_nbt_list_string writer v
  | .List v => do
      let w ← write_all writer [0x09]
      let w ← write_all w (u32_be_bytes v.length)
      write_list_seq w v
  | .Compound v => do
      let w ← write_all writer [0x0A]
      let w ← write_all w (u32_be_bytes v.length)
      write_compound_seq w v
  | .IntArray v => write_nbt_list_int_array writer v
  | .LongArray v => write_nbt_list_long_array writer v

/-- The element loop of `write_nbt_list_list`: each element list is
written by `write_nbt_list`. -/
def write_list_seq (writer : List Nat) (v : NbtListSeq) :
    IoResult (List Nat) :=
  match v with
  | .nil => Except.ok writer
  | .cons l rest => do
      let w ← write_nbt_list writer l
      write_list_seq w rest

/-- The element loop of `write_nbt_list_compound`: each element compound
is written by `write_nbt_compound`. -/
def write_compound_seq (writer : List Nat) (v : NbtCompoundSeq) :
    IoResult (List Nat) :=
  match v with
  | .nil => Except.ok writer
  | .cons c rest => do
      let w ← write_nbt_compound writer c
      write_compound_seq w rest

end

/-- Models `write_nbt_list_list`: kind byte `0x09`, `i32` count, then each
element list written by `write_nbt_list`.  Its body is inlined in the
`List` arm of `write_nbt_list` above so that the mutual block is
structurally recursive; this definition restores the source's named
function. -/
def write_nbt_list_list (writer : List Nat) (v : NbtListSeq) :
    IoResult (List Nat) := do
  let w ← write_all writer [0x09]
  let w ← write_all w (u32_be_bytes v.length)
  write_list_seq w v

/-- Models `write_nbt_list_compound`: kind byte `0x0A`, `i32` count, then
each element compound written by `write_nbt_compound`.  Its body is
inlined in the `Compound` arm of `write_nbt_list` above; this definition
restores the source's named function. -/
def write_nbt_list_compound (writer : List Nat) (v : NbtCompoundSeq) :
    IoResult (List Nat) := do
  let w ← write_all writer [0x0A]
  let w ← write_all w (u32_be_bytes v.length)
  write_compound_seq w v


/-- The two panic paths of `encode_text_component`, modelled as a result
error: `notCompound` is the `panic!("TextComponent must serialize to NBT
compound")` on a root that does not resolve to a compound, and
`writeFailed` is the `.expect("Failed to write NBT compound")` on a sink
write failure. -/
inductive PanicError : Type where
  | notCompound
  | writeFailed
deriving DecidableEq

/-- Models `encode_text_component`.  The call
`component.build(&NoResolutor, NbtBuilder)` lives in the external
`text_components` crate and returns `Nbt::Some(base)` or `Nbt::None`; it
is modelled by the `Option NbtCompound` argument (`some` carries
`base.as_compound()`).  On `some`, the function pushes the outer
`TAG_Compound` byte `0x0A` onto a fresh buffer and writes the compound
body. -/
def encode_text_component (built : Option NbtCompound) :
    Except PanicError (List Nat) :=
  match built with
  | Option.none => Except.error PanicError.notCompound
  | Option.some compound =>
      match write_nbt_compound [0x0A] compound with
      | Except.ok buffer => Except.ok buffer
      | Except.error _ => Except.error PanicError.writeFailed

/-!
Pure byte images of the writers.  Each function below computes, as a plain
list, the bytes a writer appends to its sink; the `*_ok` bridge theorems
further down prove that every writer returns `Except.ok` of its initial
buffer followed by exactly this image.
-/

mutual

/-- The bytes `write_nbt_tag_payload` appends for a tag. -/
def payload_bytes : NbtTag → List Nat
  | .Byte v => [i8_byte v]
  | .Short v => i16_be_bytes v
  | .Int v => i32_be_bytes v
  | .Long v => i64_be_bytes v
  | .Float bits => u32_be_bytes bits
  | .Double bits => u64_be_bytes bits
  | .ByteArray v => u32_be_bytes v.length ++ v
  | .String v => u16_be_bytes v.length ++ v
  | .List l => list_bytes l
  | .Compound c => compound_bytes c
  | .IntArray v => u32_be_bytes v.length ++ (v.map i32_be_bytes).flatten
  | .LongArray v => u32_be_bytes v.length ++ (v.map i64_be_bytes).flatten

/-- The bytes `write_nbt_compound` appends for a compound: each entry in
iteration order as tag id, length-prefixed key and payload, then the
terminator byte. -/
def compound_bytes : NbtCompound → List Nat
  | .nil => [0x00]
  | .entry key value rest =>
      get_nbt_tag_id value ::
        (u16_be_bytes key.length ++ key ++ payload_bytes value ++
          compound_bytes rest)

/-- The bytes `write_nbt_list` appends for a list. -/
def list_bytes : NbtList → List Nat
  | .Empty => [0x00, 0x00, 0x00, 0x00, 0x00]
  | .Byte v =>
      0x01 :: (u32_be_bytes v.length ++ (v.map fun b => [i8_byte b]).flatten)
  | .Short v =>
      0x02 :: (u32_be_bytes v.length ++ (v.map i16_be_bytes).flatten)
  | .Int v =>
      0x03 :: (u32_be_bytes v.length ++ (v.map i32_be_bytes).flatten)
  | .Long v =>
      0x04 :: (u32_be_bytes v.length ++ (v.map i64_be_bytes).flatten)
  | .Float v =>
      0x05 :: (u32_be_bytes v.length ++ (v.map u32_be_bytes).flatten)
  | .Double v =>
      0x06 :: (u32_be_bytes v.length ++ (v.map u64_be_bytes).flatten)
  | .ByteArray v =>
      0x07 :: (u32_be_bytes v.length ++
        (v.map fun a => u32_be_bytes a.length ++ a).flatten)
  | .String v =>
      0x08 :: (u32_be_bytes v.length ++
        (v.map fun s => u16_be_bytes s.length ++ s).flatten)
  | .List v => 0x09 :: (u32_be_bytes v.length ++ list_seq_bytes v)
  | .Compound v => 0x0A :: (u32_be_bytes v.length ++ compound_seq_bytes v)
  | .IntArray v =>
      0x0B :: (u32_be_bytes v.length ++
        (v.map fun a => u32_be_bytes a.length ++ (a.map i32_be_bytes).flatten).flatten)
  | .LongArray v =>
      0x0C :: (u32_be_bytes v.length ++
        (v.map fun a => u32_be_bytes a.length ++ (a.map i64_be_bytes).flatten).flatten)

/-- The concatenated byte images of a sequence of lists. -/
def list_seq_bytes : NbtListSeq → List Nat
  | .nil => []
  | .cons l rest => list_bytes l ++ list_seq_bytes rest

/-- The concatenated byte images of a sequence of compounds. -/
def compound_seq_bytes : NbtCompoundSeq → List Nat
  | .nil => []
  | .cons c rest => compound_bytes c ++ compound_seq_bytes rest

end

/-- The plain list of elements of an `NbtListSeq`. -/
def NbtListSeq.toList : NbtListSeq → List NbtList
  | .nil => []
  | .cons h t => h :: t.toList

/-- The plain list of elements of an `NbtCompoundSeq`. -/
def NbtCompoundSeq.toList : NbtCompoundSeq → List NbtCompound
  | .nil => []
  | .cons h t => h :: t.toList

/-- The on-wire encoding of one compound entry: the value's 1-byte tag
id, the `u16`-big-endian-length-prefixed key bytes, then the value's
payload. -/
def entry_enc (key : List Nat) (value : NbtTag) : List Nat :=
  get_nbt_tag_id value ::
    (u16_be_bytes key.length ++ key ++ payload_bytes value)

/-- The per-entry encodings of a compound, in iteration order. -/
def compound_entry_encs : NbtCompound → List (List Nat)
  | .nil => []
  | .entry key value rest => entry_enc key value :: compound_entry_encs rest

/-- The element-kind byte a list declares on the wire: `0x00` for the
`Empty` variant, otherwise the tag id shared by all elements. -/
def list_element_kind : NbtList → Nat
  | .Empty => 0x00
  | .Byte _ => 0x01
  | .Short _ => 0x02
  | .Int _ => 0x03
  | .Long _ => 0x04
  | .Float _ => 0x05
  | .Double _ => 0x06
  | .ByteArray _ => 0x07
  | .String _ => 0x08
  | .List _ => 0x09
  | .Compound _ => 0x0A
  | .IntArray _ => 0x0B
  | .LongArray _ => 0x0C

/-- The number of elements a list carries. -/
def list_elem_count : NbtList → Nat
  | .Empty => 0
  | .Byte v => v.length
  | .Short v => v.length
  | .Int v => v.length
  | .Long v => v.length
  | .Float v => v.length
  | .Double v => v.length
  | .ByteArray v => v.length
  | .String v => v.length
  | .List v => v.length
  | .Compound v => v.length
  | .IntArray v => v.length
  | .LongArray v => v.length

/-- The per-element payload encodings of a list, in order: exactly what
`write_payload` would emit for each element, with no tag byte and no
key. -/
def list_element_payloads : NbtList → List (List Nat)
  | .Empty => []
  | .Byte v => v.map fun b => [i8_byte b]
  | .Short v => v.map i16_be_bytes
  | .Int v => v.map i32_be_bytes
  | .Long v => v.map i64_be_bytes
  | .Float v => v.map u32_be_bytes
  | .Double v => v.map u64_be_bytes
  | .ByteArray v => v.map fun a => u32_be_bytes a.length ++ a
  | .String v => v.map fun s => u16_be_bytes s.length ++ s
  | .List v => v.toList.map list_bytes
  | .Compound v => v.toList.map compound_bytes
  | .IntArray v =>
      v.map fun a => u32_be_bytes a.length ++ (a.map i32_be_bytes).flatten
  | .LongArray v =>
      v.map fun a => u32_be_bytes a.length ++ (a.map i64_be_bytes).flatten

mutual

/-- Container-nesting depth of a tag: scalar and flat-array tags have
depth 0; a list or compound tag is one deeper than its contents. -/
def tag_depth : NbtTag → Nat
  | .List l => list_depth l + 1
  | .Compound c => compound_depth c + 1
  | _ => 0

/-- Container-nesting depth of the tags inside a compound. -/
def compound_depth : NbtCompound → Nat
  | .nil => 0
  | .entry _ value rest => max (tag_depth value) (compound_depth rest)

/-- Container-nesting depth of the elements of a list. -/
def list_depth : NbtList → Nat
  | .List v => list_seq_depth v
  | .Compound v => compound_seq_depth v
  | _ => 0

/-- Container-nesting depth of a sequence of lists. -/
def list_seq_depth : NbtListSeq → Nat
  | .nil => 0
  | .cons l rest => max (list_depth l + 1) (list_seq_depth rest)

/-- Container-nesting depth of a sequence of compounds. -/
def compound_seq_depth : NbtCompoundSeq → Nat
  | .nil => 0
  | .cons c rest => max (compound_depth c + 1) (compound_seq_depth rest)

end

/-- A compound nesting `n` compounds linearly: each level is a
single-entry compound whose value is the next level, so its
container-nesting depth is exactly `n`. -/
def deep_nest : Nat → NbtCompound
  | 0 => .nil
  | n + 1 => .entry [0x61] (.Compound (deep_nest n)) .nil

/-- Reduction of `bind` over a successful `Except` step; lets `simp`
unfold the threaded writer definitions. -/
@[simp]
theorem ok_bind {ε α β : Type} (a : α) (f : α → Except ε β) :
    (Except.ok a >>= f : Except ε β) = f a := rfl

/-- Unfolding lemma for `write_all`. -/
@[simp]
theorem write_all_eq (writer bytes : List Nat) :
    write_all writer bytes = Except.ok (writer ++ bytes) := rfl

/-- The element loop `write_each` succeeds and appends the concatenated
element encodings. -/
theorem write_each_ok {α : Type} (enc : α → List Nat) (v : List α) :
    ∀ writer, write_each enc writer v =
      Except.ok (writer ++ (v.map enc).flatten) := by
  induction v with
  | nil => intro writer; simp [write_each]
  | cons x rest ih => intro writer; simp [write_each, ih, List.append_assoc]

/-- The byte-array loop succeeds and appends each array's length prefix
and raw bytes. -/
theorem write_byte_arrays_ok (v : List (List Nat)) :
    ∀ writer, write_byte_arrays writer v =
      Except.ok (writer ++ (v.map fun a => u32_be_bytes a.length ++ a).flatten) := by
  induction v with
  | nil => intro writer; simp [write_byte_arrays]
  | cons a rest ih =>
      intro writer; simp [write_byte_arrays, ih, List.append_assoc]

/-- The string loop succeeds and appends each string's `u16` length
prefix and bytes. -/
theorem write_strings_ok (v : List (List Nat)) :
    ∀ writer, write_strings writer v =
      Except.ok (writer ++ (v.map fun s => u16_be_bytes s.length ++ s).flatten) := by
  induction v with
  | nil => intro writer; simp [write_strings]
  | cons s rest ih =>
      intro writer; simp [write_strings, ih, List.append_assoc]

/-- The int-array loop succeeds and appends each array's length prefix
and big-endian elements. -/
theorem write_int_arrays_ok (v : List (List Int)) :
    ∀ writer, write_int_arrays writer v =
      Except.ok (writer ++
        (v.map fun a => u32_be_bytes a.length ++ (a.map i32_be_bytes).flatten).flatten) := by
  induction v with
  | nil => intro writer; simp [write_int_arrays]
  | cons a rest ih =>
      intro writer
      simp [write_int_arrays, write_each_ok, ih, List.append_assoc]

/-- The long-array loop succeeds and appends each array's length prefix
and big-endian elements. -/
theorem write_long_arrays_ok (v : List (List Int)) :
    ∀ writer, write_long_arrays writer v =
      Except.ok (writer ++
        (v.map fun a => u32_be_bytes a.length ++ (a.map i64_be_bytes).flatten).flatten) := by
  induction v with
  | nil => intro writer; simp [write_long_arrays]
  | cons a rest ih =>
      intro writer
      simp [write_long_arrays, write_each_ok, ih, List.append_assoc]

mutual

/-- Bridge lemma: `write_nbt_tag_payload` always succeeds and appends
exactly `payload_bytes` of the tag. -/
theorem write_nbt_tag_payload_ok : (tag : NbtTag) → ∀ writer,
    write_nbt_tag_payload writer tag =
      Except.ok (writer ++ payload_bytes tag)
  | .Byte v => by simp [write_nbt_tag_payload, payload_bytes]
  | .Short v => by simp [write_nbt_tag_payload, payload_bytes]
  | .Int v => by simp [write_nbt_tag_payload, payload_bytes]
  | .Long v => by simp [write_nbt_tag_payload, payload_bytes]
  | .Float bits => by simp [write_nbt_tag_payload, payload_bytes]
  | .Double bits => by simp [write_nbt_tag_payload, payload_bytes]
  | .ByteArray v => by
      simp [write_nbt_tag_payload, payload_bytes, List.append_assoc]
  | .String v => by
      simp [write_nbt_tag_payload, payload_bytes, List.append_assoc]
  | .List l => by
      intro writer
      simp [write_nbt_tag_payload, payload_bytes, write_nbt_list_ok l]
  | .Compound c => by
      intro writer
      simp [write_nbt_tag_payload, payload_bytes, write_nbt_compound_ok c]
  | .IntArray v => by
      simp [write_nbt_tag_payload, payload_bytes, write_each_ok,
        List.append_assoc]
  | .LongArray v => by
      simp [write_nbt_tag_payload, payload_bytes, write_each_ok,
        List.append_assoc]

/-- Bridge lemma: `write_nbt_compound` always succeeds and appends
exactly `compound_bytes` of the compound. -/
theorem write_nbt_compound_ok : (compound : NbtCompound) → ∀ writer,
    write_nbt_compound writer compound =
      Except.ok (writer ++ compound_bytes compound)
  | .nil => by simp [write_nbt_compound, compound_bytes]
  | .entry key value rest => by
      intro writer
      simp [write_nbt_compound, compound_bytes,
        write_nbt_tag_payload_ok value, write_nbt_compound_ok rest,
        List.append_assoc]

/-- Bridge lemma: `write_nbt_list` always succeeds and appends exactly
`list_bytes` of the list. -/
theorem write_nbt_list_ok : (list : NbtList) → ∀ writer,
    write_nbt_list writer list = Except.ok (writer ++ list_bytes list)
  | .Empty => by simp [write_nbt_list, list_bytes]
  | .Byte v => by
      simp [write_nbt_list, list_bytes, write_each_ok, List.append_assoc]
  | .Short v => by
      simp [write_nbt_list, list_bytes, write_each_ok, List.append_assoc]
  | .Int v => by
      simp [write_nbt_list, list_bytes, write_each_ok, List.append_assoc]
  | .Long v => by
      simp [write_nbt_list, write_nbt_list_long, list_bytes, write_each_ok,
        List.append_assoc]
  | .Float v => by
      simp [write_nbt_list, write_nbt_list_float, list_bytes, write_each_ok,
        List.append_assoc]
  | .Double v => by
      simp [write_nbt_list, write_nbt_list_double, list_bytes, write_each_ok,
        List.append_assoc]
  | .ByteArray v => by
      simp [write_nbt_list, write_nbt_list_byte_array, list_bytes,
        write_byte_arrays_ok, List.append_assoc]
  | .String v => by
      simp [write_nbt_list, write_nbt_list_string, list_bytes,
        write_strings_ok, List.append_assoc]
  | .List v => by
      intro writer
      simp [write_nbt_list, list_bytes, write_list_seq_ok v,
        List.append_assoc]
  | .Compound v => by
      intro writer
      simp [write_nbt_list, list_bytes, write_compound_seq_ok v,
        List.append_assoc]
  | .IntArray v => by
      simp [write_nbt_list, write_nbt_list_int_array, list_bytes,
        write_int_arrays_ok, List.append_assoc]
  | .LongArray v => by
      simp [write_nbt_list, write_nbt_list_long_array, list_bytes,
        write_long_arrays_ok, List.append_assoc]

/-- Bridge lemma: the list-sequence loop always succeeds and appends the
concatenated list encodings. -/
theorem write_list_seq_ok : (v : NbtListSeq) → ∀ writer,
    write_list_seq writer v = Except.ok (writer ++ list_seq_bytes v)
  | .nil => by simp [write_list_seq, list_seq_bytes]
  | .cons l rest => by
      intro writer
      simp [write_list_seq, list_seq_bytes, write_nbt_list_ok l,
        write_list_seq_ok rest, List.append_assoc]

/-- Bridge lemma: the compound-sequence loop always succeeds and appends
the concatenated compound encodings. -/
theorem write_compound_seq_ok : (v : NbtCompoundSeq) → ∀ writer,
    write_compound_seq writer v = Except.ok (writer ++ compound_seq_bytes v)
  | .nil => by simp [write_compound_seq, compound_seq_bytes]
  | .cons c rest => by
      intro writer
      simp [write_compound_seq, compound_seq_bytes, write_nbt_compound_ok c,
        write_compound_seq_ok rest, List.append_assoc]

end


/-- The nesting depth of `deep_nest n` is `n`. -/
theorem compound_depth_deep_nest (n : Nat) :
    compound_depth (deep_nest n) = n := by
  induction n with
  | zero => rfl
  | succ n ih => simp [deep_nest, compound_depth, tag_depth, ih]

/-- Unfolded form of `compound_bytes`: the per-entry encodings in
iteration order, then the single terminator byte. -/
theorem compound_bytes_eq : (c : NbtCompound) →
    compound_bytes c = (compound_entry_encs c).flatten ++ [0x00]
  | .nil => by simp [compound_bytes, compound_entry_encs]
  | .entry key value rest => by
      simp [compound_bytes, compound_entry_encs, entry_enc,
        compound_bytes_eq rest, List.append_assoc]

/-- An `NbtListSeq` has as many elements as its `toList`. -/
theorem listSeq_length_toList : (v : NbtListSeq) →
    v.toList.length = v.length
  | .nil => rfl
  | .cons h t => by simp [NbtListSeq.toList, NbtListSeq.length,
      listSeq_length_toList t]

/-- An `NbtCompoundSeq` has as many elements as its `toList`. -/
theorem compoundSeq_length_toList : (v : NbtCompoundSeq) →
    v.toList.length = v.length
  | .nil => rfl
  | .cons h t => by simp [NbtCompoundSeq.toList, NbtCompoundSeq.length,
      compoundSeq_length_toList t]

/-- The bytes of a list sequence are the concatenated bytes of its
elements. -/
theorem list_seq_bytes_eq_toList : (v : NbtListSeq) →
    list_seq_bytes v = (v.toList.map list_bytes).flatten
  | .nil => by simp [list_seq_bytes, NbtListSeq.toList]
  | .cons l rest => by
      simp [list_seq_bytes, NbtListSeq.toList,
        list_seq_bytes_eq_toList rest]

/-- The bytes of a compound sequence are the concatenated bytes of its
elements. -/
theorem compound_seq_bytes_eq_toList : (v : NbtCompoundSeq) →
    compound_seq_bytes v = (v.toList.map compound_bytes).flatten
  | .nil => by simp [compound_seq_bytes, NbtCompoundSeq.toList]
  | .cons c rest => by
      simp [compound_seq_bytes, NbtCompoundSeq.toList,
        compound_seq_bytes_eq_toList rest]

/-- Unfolded form of `list_bytes`: the declared element-kind byte, the
`i32` big-endian element count, then the element payloads concatenated in
order. -/
theorem list_bytes_eq (l : NbtList) :
    list_bytes l = list_element_kind l ::
      (u32_be_bytes (list_elem_count l) ++
        (list_element_payloads l).flatten) := by
  cases l with
  | Empty => rfl
  | List v =>
      simp [list_bytes, list_element_kind, list_elem_count,
        list_element_payloads, list_seq_bytes_eq_toList,
        listSeq_length_toList]
  | Compound v =>
      simp [list_bytes, list_element_kind, list_elem_count,
        list_element_payloads, compound_seq_bytes_eq_toList,
        compoundSeq_length_toList]
  | _ =>
      simp [list_bytes, list_element_kind, list_elem_count,
        list_element_payloads]

/-- A list with zero elements has no element payloads. -/
theorem list_element_payloads_eq_nil (l : NbtList)
    (h : list_elem_count l = 0) : list_element_payloads l = [] := by
  cases l with
  | Empty => rfl
  | List v =>
      cases v with
      | nil => rfl
      | cons a b => simp [list_elem_count, NbtListSeq.length] at h
  | Compound v =>
      cases v with
      | nil => rfl
      | cons a b => simp [list_elem_count, NbtCompoundSeq.length] at h
  | _ =>
      first
      | (rename_i v; cases v with
         | nil => rfl
         | cons a b => simp [list_elem_count] at h)

/-- Successful branch of `encode_text_component`: a compound root always
encodes to the outer `0x0A` byte followed by the compound body. -/
theorem encode_some (c : NbtCompound) :
    encode_text_component (Option.some c) =
      Except.ok (0x0A :: compound_bytes c) := by
  simp [encode_text_component, write_nbt_compound_ok c]

/-- C1: encoding the compound with the single entry key "text" (bytes
`74 65 78 74`) mapped to the String "hi" (bytes `68 69`) yields exactly
the 13 bytes `0A 08 00 04 74 65 78 74 00 02 68 69 00`: outer Compound
tag id, String id, u16 key length 4, the key bytes, u16 string length 2,
the string bytes, compound terminator. -/
theorem claim_C1 :
    encode_text_component (Option.some (NbtCompound.entry
        [0x74, 0x65, 0x78, 0x74] (NbtTag.String [0x68, 0x69])
        NbtCompound.nil)) =
      Except.ok [0x0A, 0x08, 0x00, 0x04, 0x74, 0x65, 0x78, 0x74,
        0x00, 0x02, 0x68, 0x69, 0x00] := rfl

/-- C2: for every compound and every sink state, `write_nbt_compound`
emits, for each entry in iteration order, the entry's 1-byte tag id, the
u16-big-endian-length-prefixed key, and the entry's payload, then exactly
one `0x00` terminator after all entries; consequently the compound's
on-wire length is the sum of its entry lengths plus one. -/
theorem claim_C2 (writer : List Nat) (compound : NbtCompound) :
    write_nbt_compound writer compound =
      Except.ok (writer ++
        ((compound_entry_encs compound).flatten ++ [0x00])) ∧
    ((compound_entry_encs compound).flatten ++ [0x00]).length =
      ((compound_entry_encs compound).map List.length).sum + 1 := by
  constructor
  · rw [write_nbt_compound_ok compound, compound_bytes_eq]
  · simp [List.length_flatten]

/-- C3: for every list with at least one element, `write_nbt_list` emits
exactly the declared element-kind byte, the i32 big-endian element count,
then the element payloads concatenated in order, with no per-element tag
byte and no per-element key. -/
theorem claim_C3 (writer : List Nat) (l : NbtList)
    (_hne : 0 < list_elem_count l) :
    write_nbt_list writer l =
      Except.ok (writer ++ list_element_kind l ::
        (u32_be_bytes (list_elem_count l) ++
          (list_element_payloads l).flatten)) := by
  rw [write_nbt_list_ok l, list_bytes_eq]

/-- Witness for C3 at the int list `[1, 2, 3]`: kind byte `0x03`, count
3, then the three big-endian i32 payloads. -/
theorem claim_C3_witness :
    0 < list_elem_count (NbtList.Int [1, 2, 3]) ∧
    write_nbt_list [] (NbtList.Int [1, 2, 3]) =
      Except.ok [0x03, 0x00, 0x00, 0x00, 0x03,
        0x00, 0x00, 0x00, 0x01, 0x00, 0x00, 0x00, 0x02,
        0x00, 0x00, 0x00, 0x03] :=
  ⟨by decide, (claim_C3 [] (NbtList.Int [1, 2, 3]) (by decide)).trans (by rfl)⟩

/-- Counterexample to C4 as stated: the zero-element list of declared
element type Int is written with its declared kind byte `0x03`, not the
canonical `0x00` element-kind byte, so a zero-element list is not always
encoded as `00 00 00 00 00`. -/
theorem claim_C4_counterexample :
    list_elem_count (NbtList.Int []) = 0 ∧
    write_nbt_list [] (NbtList.Int []) =
      Except.ok [0x03, 0x00, 0x00, 0x00, 0x00] ∧
    (0x03 : Nat) ≠ 0x00 :=
  ⟨rfl, rfl, by decide⟩

/-- C4 amended: the `Empty` list variant is written as exactly the five
bytes `00 00 00 00 00`; a zero-element list of any other declared element
kind is instead written as its declared kind byte followed by the i32
count 0. -/
theorem claim_C4 :
    (∀ writer, write_nbt_list writer NbtList.Empty =
      Except.ok (writer ++ [0x00, 0x00, 0x00, 0x00, 0x00])) ∧
    (∀ writer l, 0 < list_element_kind l → list_elem_count l = 0 →
      write_nbt_list writer l =
        Except.ok (writer ++
          list_element_kind l :: [0x00, 0x00, 0x00, 0x00])) := by
  constructor
  · intro writer
    rw [write_nbt_list_ok]
    rfl
  · intro writer l hk hc
    rw [write_nbt_list_ok l, list_bytes_eq, hc,
      list_element_payloads_eq_nil l hc]
    rfl

/-- Witness for the amended C4 at the zero-element Int list: declared
kind byte `0x03` followed by count 0. -/
theorem claim_C4_witness :
    0 < list_element_kind (NbtList.Int []) ∧
    list_elem_count (NbtList.Int []) = 0 ∧
    write_nbt_list [] (NbtList.Int []) =
      Except.ok [0x03, 0x00, 0x00, 0x00, 0x00] :=
  ⟨by decide, rfl,
    (claim_C4.2 [] (NbtList.Int []) (by decide) rfl).trans (by rfl)⟩

/-- C5: for every compound root, the encoder output is non-empty, starts
with `0x0A` and ends with `0x00`. -/
theorem claim_C5 (c : NbtCompound) :
    ∃ buffer, encode_text_component (Option.some c) = Except.ok buffer ∧
      buffer ≠ [] ∧ buffer.head? = Option.some 0x0A ∧
      buffer.getLast? = Option.some 0x00 := by
  refine ⟨0x0A :: compound_bytes c, encode_some c, by simp, rfl, ?_⟩
  rw [compound_bytes_eq]
  rw [show (0x0A : Nat) :: ((compound_entry_encs c).flatten ++ [0x00]) =
    (0x0A :: (compound_entry_encs c).flatten) ++ [0x00] from rfl]
  exact List.getLast?_concat _

/-- C6: the writers' only possible failure is the single I/O-kind sink
write error (and on the in-memory sink they in fact succeed); a root that
does not resolve to a compound aborts encoding with the fatal
`notCompound` error, which is distinct from the write-failure error, and
no bytes are produced. -/
theorem claim_C6 :
    (∀ writer compound, write_nbt_compound writer compound =
        Except.error IoError.writeFailed ∨
      ∃ out, write_nbt_compound writer compound = Except.ok out) ∧
    encode_text_component Option.none =
      Except.error PanicError.notCompound ∧
    decide (PanicError.notCompound = PanicError.writeFailed) = false := by
  refine ⟨?_, rfl, by decide⟩
  intro writer compound
  exact Or.inr ⟨writer ++ compound_bytes compound,
    write_nbt_compound_ok compound writer⟩

/-- Counterexample to C7 as stated: a compound nested 513 levels deep
exceeds the claimed maximum depth of 512, yet encoding succeeds instead
of failing with a depth-exceeded error — the code has no depth guard. -/
theorem claim_C7_counterexample :
    512 < compound_depth (deep_nest 513) ∧
    ∃ out, encode_text_component (Option.some (deep_nest 513)) =
      Except.ok out := by
  constructor
  · rw [compound_depth_deep_nest]; omega
  · exact ⟨0x0A :: compound_bytes (deep_nest 513), encode_some _⟩

/-- C7 amended: the encoder enforces no depth limit — every input tree
whose nesting depth exceeds 512 still encodes successfully (recursion is
bounded only by the machine stack, not by any configured maximum). -/
theorem claim_C7 (c : NbtCompound) (_hdeep : 512 < compound_depth c) :
    encode_text_component (Option.some c) =
      Except.ok (0x0A :: compound_bytes c) :=
  encode_some c

/-- Witness for the amended C7 at a compound nested 600 levels deep. -/
theorem claim_C7_witness :
    512 < compound_depth (deep_nest 600) ∧
    encode_text_component (Option.some (deep_nest 600)) =
      Except.ok (0x0A :: compound_bytes (deep_nest 600)) :=
  ⟨by rw [compound_depth_deep_nest]; decide,
   claim_C7 (deep_nest 600) (by rw [compound_depth_deep_nest]; decide)⟩

/-- C8: a string payload of byte length at most 65535 is written as the
u16 big-endian length followed by exactly the payload bytes verbatim; in
particular the empty string is written as the two bytes `00 00` and
nothing else. -/
theorem claim_C8 :
    (∀ writer (s : List Nat), s.length ≤ 65535 →
      write_nbt_tag_payload writer (NbtTag.String s) =
        Except.ok (writer ++ s.length / 256 :: s.length % 256 :: s)) ∧
    (∀ writer, write_nbt_tag_payload writer (NbtTag.String []) =
      Except.ok (writer ++ [0x00, 0x00])) := by
  constructor
  · intro writer s h
    rw [write_nbt_tag_payload_ok]
    have hdiv : s.length / 256 % 256 = s.length / 256 := by
      apply Nat.mod_eq_of_lt
      omega
    simp [payload_bytes, u16_be_bytes, hdiv]
  · intro writer
    rw [write_nbt_tag_payload_ok]
    rfl

/-- Witness for C8 at the two-byte string "hi": u16 length `00 02`, then
the bytes `68 69`. -/
theorem claim_C8_witness :
    ([0x68, 0x69] : List Nat).length ≤ 65535 ∧
    write_nbt_tag_payload [] (NbtTag.String [0x68, 0x69]) =
      Except.ok [0x00, 0x02, 0x68, 0x69] :=
  ⟨by decide,
    (claim_C8.1 [] [0x68, 0x69] (by decide)).trans (by rfl)⟩

/-- C9: every writer is append-only — for every input value and every
initial buffer contents, the writer returns the initial contents followed
by exactly the value's encoding, with no previously written byte modified
or removed. -/
theorem claim_C9 :
    (∀ writer compound, write_nbt_compound writer compound =
      Except.ok (writer ++ compound_bytes compound)) ∧
    (∀ writer tag, write_nbt_tag_payload writer tag =
      Except.ok (writer ++ payload_bytes tag)) ∧
    (∀ writer l, write_nbt_list writer l =
      Except.ok (writer ++ list_bytes l)) :=
  ⟨fun writer compound => write_nbt_compound_ok compound writer,
   fun writer tag => write_nbt_tag_payload_ok tag writer,
   fun writer l => write_nbt_list_ok l writer⟩

/-- C10: because the sink is an in-memory growable byte vector, every
writer call returns `Ok` for every input, so the error-propagating
`expect` in `encode_text_component` can never fire due to a write
failure: a compound root always encodes successfully. -/
theorem claim_C10 :
    (∀ writer compound, ∃ out,
      write_nbt_compound writer compound = Except.ok out) ∧
    (∀ writer tag, ∃ out,
      write_nbt_tag_payload writer tag = Except.ok out) ∧
    (∀ writer l, ∃ out, write_nbt_list writer l = Except.ok out) ∧
    (∀ c, encode_text_component (Option.some c) =
      Except.ok (0x0A :: compound_bytes c)) :=
  ⟨fun writer compound =>
      ⟨writer ++ compound_bytes compound,
        write_nbt_compound_ok compound writer⟩,
   fun writer tag =>
      ⟨writer ++ payload_bytes tag, write_nbt_tag_payload_ok tag writer⟩,
   fun writer l => ⟨writer ++ list_bytes l, write_nbt_list_ok l writer⟩,
   fun c => encode_some c⟩
